import Mathlib

/-!
# Verification of the JsonRS lexer/parser (`src/main.rs`)

A shallow embedding of the two-stage JSON pipeline of the repository:

* the lexer `Lexer::lex` (a single left-to-right scan producing tokens), and
* the recursive-descent parser `Parser::parse` / `parse_expression` /
  `parse_array` / `parse_object`,

together with the pipeline function `json`.

Modelling conventions:

* Rust `f64` payloads are represented by the source slice that was fed to
  `str::parse::<f64>()`; the claims under study never depend on numeric
  identities of floats, only on whether the slice is accepted by the float
  grammar, which `parsesAsF64` models (it follows the grammar documented for
  Rust's `f64::from_str`).
* A Rust panic (an `unwrap()` on a failed float parse, a slice whose end is
  past the end of the source, or an out-of-bounds `Vec` index) is modelled by
  the explicit `abort` outcome.  The lexer result type is `LexOut`, the parser
  result type is `POut`.
* Rust `while` loops are modelled by recursion.  Because the loop measures are
  not structural, both passes take a fuel argument; fuel is consumed once per
  loop iteration / call, `fuelOut` marks exhaustion, and the entry points
  supply fuel that is large enough (the concrete theorems evaluate the entry
  points directly, so a `fuelOut` could never be mistaken for an abort).
-/

/-- The token type of `src/main.rs` (`enum Token`).  The `f64` payload of
`NumberLiteral` is modelled by the raw source slice (see the header). -/
inductive Token where
  | leftBrace : Token
  | rightBrace : Token
  | leftBracket : Token
  | rightBracket : Token
  | comma : Token
  | colon : Token
  | numberLiteral (raw : String) : Token
  | stringLiteral (s : String) : Token
deriving DecidableEq, Repr

/-- The AST type of `src/main.rs` (`enum JsonExpression`).  `Box` indirections
are dropped; `Number`'s `f64` is modelled by its source slice. -/
inductive JsonExpression where
  | number (raw : String) : JsonExpression
  | string (s : String) : JsonExpression
  | array (elements : List JsonExpression) : JsonExpression
  | object (pairs : List (String × JsonExpression)) : JsonExpression

/-- `fn is_delim(c: char) -> bool` from `src/main.rs` line 88: note that the
space character is NOT in this list (only `,{}[]:` and `\n`, `\t`, `\r`). -/
def is_delim (c : Char) : Bool :=
  c = ',' || c = '{' || c = '}' || c = '[' || c = ']' || c = ':' ||
  c = '\n' || c = '\t' || c = '\r'

/-- One step of the exponent part of Rust's `f64::from_str` grammar:
after the mantissa the remaining characters must be empty or
`('e'|'E') ('+'|'-')? Digit+` consuming everything. -/
def acceptExpOrEnd : List Char → Bool
  | [] => true
  | c :: rest =>
    (c = 'e' || c = 'E') &&
      (let rest2 := match rest with
        | d :: rs => if d = '+' || d = '-' then rs else d :: rs
        | [] => []
       let ds := rest2.takeWhile Char.isDigit
       let tail := rest2.dropWhile Char.isDigit
       (!ds.isEmpty) && tail.isEmpty)

/-- The mantissa of Rust's `f64::from_str` grammar:
`Digit+ '.'? Digit* Exp?  |  '.' Digit+ Exp?`. -/
def acceptMantissa (cs : List Char) : Bool :=
  let intDigits := cs.takeWhile Char.isDigit
  let rest1 := cs.dropWhile Char.isDigit
  match rest1 with
  | '.' :: rest2 =>
    let fracDigits := rest2.takeWhile Char.isDigit
    let rest3 := rest2.dropWhile Char.isDigit
    (!intDigits.isEmpty || !fracDigits.isEmpty) && acceptExpOrEnd rest3
  | _ => (!intDigits.isEmpty) && acceptExpOrEnd rest1

/-- Whether `s.parse::<f64>()` succeeds in Rust, following the grammar
documented for `f64::from_str`:
`Sign? ( 'inf' | 'infinity' | 'nan' | Number )`, case-insensitive for the
special values.  In particular a trailing space makes the parse fail
(Rust float parsing does not trim whitespace), and `true`/`false`/`null`
are rejected. -/
def parsesAsF64 (cs : List Char) : Bool :=
  let cs1 := match cs with
    | c :: rest => if c = '+' || c = '-' then rest else c :: rest
    | [] => []
  let low := cs1.map Char.toLower
  low = ['i', 'n', 'f'] ||
  low = ['i', 'n', 'f', 'i', 'n', 'i', 't', 'y'] ||
  low = ['n', 'a', 'n'] ||
  acceptMantissa cs1

/-- The string-body scan of `Lexer::lex` (lines 57-69): after the opening
quote, characters are consumed until an unescaped `"`; a backslash makes the
scan skip the following character, keeping both in the payload.  Returns
`some (payload, rest)` where `rest` is what the outer loop resumes on, or
`none` when the scan ends mid-escape (a final backslash bumps the index to
`len + 1` and the Rust slice `source[start..index]` aborts). -/
def scanString : List Char → Option (List Char × List Char)
  | [] => some ([], [])
  | '"' :: rest => some ([], rest)
  | '\\' :: [] => none
  | '\\' :: c :: rest =>
    match scanString rest with
    | none => none
    | some (p, r) => some ('\\' :: c :: p, r)
  | c :: rest =>
    match scanString rest with
    | none => none
    | some (p, r) => some (c :: p, r)

/-- Outcome of the lexer: a produced token sequence, an abort (one of the Rust
panics: failed `unwrap` of the float parse or string-slice overrun), or fuel
exhaustion (never reached from `lex`). -/
inductive LexOut where
  | fuelOut : LexOut
  | abort : LexOut
  | toks : List Token → LexOut
deriving DecidableEq, Repr

/-- Prepend a token to a successful lexer outcome (the Rust code pushes tokens
left to right; the embedding conses onto the result of lexing the rest). -/
def LexOut.push (t : Token) : LexOut → LexOut
  | LexOut.toks ts => LexOut.toks (t :: ts)
  | out => out

/-- The main loop of `Lexer::lex` (lines 45-85), one recursive call per
outer-loop iteration.  The bareword branch scans the longest run of
non-`is_delim` characters starting at the current character (the current
character itself is never an `is_delim` character in that branch) and aborts
when the run is not accepted by the float grammar, modelling
`s.parse::<f64>().unwrap()`. -/
def lexLoop : Nat → List Char → LexOut
  | 0, _ => LexOut.fuelOut
  | _ + 1, [] => LexOut.toks []
  | f + 1, c :: rest =>
    if c = ' ' || c = '\n' || c = '\t' || c = '\r' then
      lexLoop f rest
    else if c = '{' then LexOut.push Token.leftBrace (lexLoop f rest)
    else if c = '}' then LexOut.push Token.rightBrace (lexLoop f rest)
    else if c = '[' then LexOut.push Token.leftBracket (lexLoop f rest)
    else if c = ']' then LexOut.push Token.rightBracket (lexLoop f rest)
    else if c = ',' then LexOut.push Token.comma (lexLoop f rest)
    else if c = ':' then LexOut.push Token.colon (lexLoop f rest)
    else if c = '"' then
      match scanString rest with
      | none => LexOut.abort
      | some (payload, rest2) =>
        LexOut.push (Token.stringLiteral (String.mk payload)) (lexLoop f rest2)
    else
      let run := c :: rest.takeWhile (fun d => !is_delim d)
      if parsesAsF64 run then
        LexOut.push (Token.numberLiteral (String.mk run))
          (lexLoop f (rest.dropWhile (fun d => !is_delim d)))
      else LexOut.abort

/-- `Lexer::lex` on a whole character sequence.  Every iteration consumes at
least one character, so `length + 1` fuel is always enough. -/
def lex (cs : List Char) : LexOut :=
  lexLoop (cs.length + 1) cs

example : lex "[]".data = LexOut.toks [Token.leftBracket, Token.rightBracket] := rfl

example : lex "[1,2]".data =
    LexOut.toks [Token.leftBracket, Token.numberLiteral "1", Token.comma,
      Token.numberLiteral "2", Token.rightBracket] := rfl

example : lex "true".data = LexOut.abort := rfl

example : lex "[1 ,2]".data = LexOut.abort := rfl

example : lex "\"ab\\".data = LexOut.abort := rfl

example : lex "\"abc".data = LexOut.toks [Token.stringLiteral "abc"] := rfl

/-- Outcome of a parser call: fuel exhaustion (never reached from
`parser_parse`), an abort (modelling the Rust panic on an out-of-bounds
`self.tokens[self.current]`), or the Rust `Result` value paired with the
tokens that remain unconsumed (the Rust parser instead keeps an index
`self.current`; since it never looks behind that index, the suffix of
unconsumed tokens carries the same information). -/
inductive POut where
  | fuelOut : POut
  | abort : POut
  | res : Except String JsonExpression → List Token → POut

/-- The call descriptor used to present the mutually recursive parser
functions as a single fuel-indexed function: `expr`, `arr` and `obj` are
`parse_expression`, `parse_array` and `parse_object`; `arrLoop` and `objLoop`
are the element/member `loop`s inside `parse_array` and `parse_object`, with
`acc` the Rust `elements` / `key_values_pairs` vector accumulated so far. -/
inductive PCall where
  | expr (ts : List Token) : PCall
  | arr (ts : List Token) : PCall
  | arrLoop (ts : List Token) (acc : List JsonExpression) : PCall
  | obj (ts : List Token) : PCall
  | objLoop (ts : List Token) (acc : List (String × JsonExpression)) : PCall

/-- The recursive-descent parser of `src/main.rs` lines 105-219, with one
unit of fuel consumed per call.  Every branch mirrors the source:

* `expr` is `parse_expression` (lines 118-133);
* `arr` is `parse_array` up to its `loop` (lines 135-148), `arrLoop` is the
  `loop` body (lines 150-168) with the trailing right-bracket check folded
  into the non-comma break;
* `obj` / `objLoop` are `parse_object` the same way (lines 171-218).

Reading a token from an empty suffix models the panicking
`self.tokens[self.current]` and yields `abort`. -/
def parseStep : Nat → PCall → POut
  | 0, _ => POut.fuelOut
  | f + 1, PCall.expr ts =>
    match ts with
    | [] => POut.abort
    | Token.leftBracket :: _ => parseStep f (PCall.arr ts)
    | Token.leftBrace :: _ => parseStep f (PCall.obj ts)
    | Token.numberLiteral n :: rest =>
      POut.res (Except.ok (JsonExpression.number n)) rest
    | Token.stringLiteral s :: rest =>
      POut.res (Except.ok (JsonExpression.string s)) rest
    | _ :: _ =>
      POut.res (Except.error "Unexpected token at start of expression...") ts
  | f + 1, PCall.arr ts =>
    match ts with
    | [] => POut.abort
    | Token.leftBracket :: rest =>
      match rest with
      | [] => POut.abort
      | Token.rightBracket :: rest2 =>
        POut.res (Except.ok (JsonExpression.array [])) rest2
      | _ :: _ => parseStep f (PCall.arrLoop rest [])
    | _ :: _ => POut.res (Except.error "Expected left bracket...") ts
  | f + 1, PCall.arrLoop ts acc =>
    match parseStep f (PCall.expr ts) with
    | POut.fuelOut => POut.fuelOut
    | POut.abort => POut.abort
    | POut.res (Except.error e) rest => POut.res (Except.error e) rest
    | POut.res (Except.ok e) rest =>
      match rest with
      | [] => POut.abort
      | Token.comma :: rest2 => parseStep f (PCall.arrLoop rest2 (acc ++ [e]))
      | Token.rightBracket :: rest2 =>
        POut.res (Except.ok (JsonExpression.array (acc ++ [e]))) rest2
      | _ :: _ => POut.res (Except.error "Expected right bracket...") rest
  | f + 1, PCall.obj ts =>
    match ts with
    | [] => POut.abort
    | Token.leftBrace :: rest =>
      match rest with
      | [] => POut.abort
      | Token.rightBrace :: rest2 =>
        POut.res (Except.ok (JsonExpression.object [])) rest2
      | _ :: _ => parseStep f (PCall.objLoop rest [])
    | _ :: _ => POut.res (Except.error "Expected left brace...") ts
  | f + 1, PCall.objLoop ts acc =>
    match ts with
    | [] => POut.abort
    | Token.stringLiteral k :: rest =>
      match rest with
      | [] => POut.abort
      | Token.colon :: rest2 =>
        match parseStep f (PCall.expr rest2) with
        | POut.fuelOut => POut.fuelOut
        | POut.abort => POut.abort
        | POut.res (Except.error e) rest3 => POut.res (Except.error e) rest3
        | POut.res (Except.ok v) rest3 =>
          match rest3 with
          | [] => POut.abort
          | Token.comma :: rest4 =>
            parseStep f (PCall.objLoop rest4 (acc ++ [(k, v)]))
          | Token.rightBrace :: rest4 =>
            POut.res (Except.ok (JsonExpression.object (acc ++ [(k, v)]))) rest4
          | _ :: _ => POut.res (Except.error "Expected right brace...") rest3
      | _ :: _ => POut.res (Except.error "Expected colon...") rest
    | _ :: _ => POut.res (Except.error "Expected string literal...") ts

/-- `Parser::parse_expression` (lines 118-133). -/
def parse_expression (f : Nat) (ts : List Token) : POut :=
  parseStep f (PCall.expr ts)

/-- `Parser::parse_array` (lines 135-169). -/
def parse_array (f : Nat) (ts : List Token) : POut :=
  parseStep f (PCall.arr ts)

/-- `Parser::parse_object` (lines 171-218). -/
def parse_object (f : Nat) (ts : List Token) : POut :=
  parseStep f (PCall.obj ts)

/-- Fuel supplied by the entry point: each parser call consumes one unit, and
along any call path at least one token is consumed per three units, so
`3 * length + 2` units never run out. -/
def parserFuel (ts : List Token) : Nat := 3 * ts.length + 2

/-- `Parser::parse` (lines 110-116): the entry point dispatches on the first
token; anything other than `{` or `[` is rejected with `Err(String::from(""))`
— the empty error string; an empty token sequence aborts on
`self.tokens[self.current]` with `current = 0`. -/
def parser_parse (ts : List Token) : POut :=
  match ts with
  | [] => POut.abort
  | Token.leftBrace :: _ => parse_object (parserFuel ts) ts
  | Token.leftBracket :: _ => parse_array (parserFuel ts) ts
  | _ :: _ => POut.res (Except.error "") ts

/-- The pipeline `fn json(source: String)` (lines 221-227), keeping the full
outcome: `none` when the lexer aborts, otherwise the parser outcome. -/
def json_out (source : String) : Option POut :=
  match lex source.data with
  | LexOut.toks ts => some (parser_parse ts)
  | _ => none

/-- The pipeline `fn json(source: String)` with the Rust signature
`Result<JsonExpression, String>`: `none` models a panic anywhere in the
pipeline (and the unreachable `fuelOut`). -/
def json (source : String) : Option (Except String JsonExpression) :=
  match json_out source with
  | some (POut.res r _) => some r
  | _ => none

example : json "[]" = some (Except.ok (JsonExpression.array [])) := rfl

example : json "42" = some (Except.error "") := rfl

example : json "[1,]" =
    some (Except.error "Unexpected token at start of expression...") := rfl

example : json "[1, 2" = none := rfl

example : json_out "[1, 2" = some POut.abort := rfl

example : json "" = none := rfl

example : json "\x7b\"a\":1,\"b\":2.0\x7d" =
    some (Except.ok (JsonExpression.object
      [("a", JsonExpression.number "1"), ("b", JsonExpression.number "2.0")])) := rfl

example : json "\x7b\"k\": \"a\\\"b\"\x7d" =
    some (Except.ok (JsonExpression.object
      [("k", JsonExpression.string "a\\\"b")])) := rfl

/-- The fixed error strings produced by `parse_expression`, `parse_array` and
`parse_object` (the entry point `parse` is not included: it produces
`String::from("")`). -/
def errorMessages : List String :=
  ["Unexpected token at start of expression...",
   "Expected left bracket...",
   "Expected right bracket...",
   "Expected left brace...",
   "Expected right brace...",
   "Expected colon...",
   "Expected string literal..."]

/-- Spec-side predicate for the string-body scan: the remaining characters
contain a closing `"` that the (escape-skipping) scan will reach.  Used to
state the unterminated-string claim. -/
def hasCloseQuote : List Char → Bool
  | [] => false
  | '"' :: _ => true
  | '\\' :: [] => false
  | '\\' :: _ :: rest => hasCloseQuote rest
  | _ :: rest => hasCloseQuote rest

/-- Spec-side predicate: the escape-skipping scan of the remaining characters
ends mid-escape, i.e. the final scanned character is a backslash whose escaped
character lies past the end of the input. -/
def endsMidEscape : List Char → Bool
  | [] => false
  | '"' :: _ => false
  | '\\' :: [] => true
  | '\\' :: _ :: rest => endsMidEscape rest
  | _ :: rest => endsMidEscape rest

/-- The token rendering of one object member `key : value`, with the value
given by an arbitrary token sequence. -/
def memberTokens (m : String × List Token × JsonExpression) : List Token :=
  Token.stringLiteral m.1 :: Token.colon :: m.2.1

/-- Comma-separated concatenation of token sequences. -/
def sepByComma : List (List Token) → List Token
  | [] => []
  | [x] => x
  | x :: y :: rest => x ++ Token.comma :: sepByComma (y :: rest)

/-- The token rendering of a whole object literal:
`{ member , member , ... }`. -/
def objectTokens (members : List (String × List Token × JsonExpression)) : List Token :=
  Token.leftBrace :: sepByComma (members.map memberTokens) ++ [Token.rightBrace]

/-- Concatenation of token sequences. -/
def joinTokens : List (List Token) → List Token
  | [] => []
  | x :: rest => x ++ joinTokens rest

/-- The token rendering of an array literal in which every element — the last
included — is followed by a comma: `[ e1 , e2 , ... , en , ]`. -/
def arrayTokensTrailing (elems : List (List Token × JsonExpression)) : List Token :=
  Token.leftBracket ::
    joinTokens (elems.map (fun e => e.1 ++ [Token.comma])) ++ [Token.rightBracket]

/-- C1: the source `"[1, 2"` lexes to `[`, `1`, `,`, `2` and the parser then
reads `self.tokens[4]`, out of bounds: the pipeline aborts (Rust panic)
instead of returning any error value — contradicting the claim that `parse`
returns `UnexpectedEndOfInput` rather than crashing. -/
theorem C1_truncated_input_aborts :
    json_out "[1, 2" = some POut.abort ∧ json "[1, 2" = none ∧
    lex "[1, 2".data = LexOut.toks [Token.leftBracket, Token.numberLiteral "1",
      Token.comma, Token.numberLiteral "2"] :=
  ⟨rfl, rfl, rfl⟩

/-- C2: the space character is NOT a delimiter for `is_delim`, so in
`"[1 ,2]"` the bareword run is `"1 "` (digit and space), which fails the
float parse and makes the lexer abort on the `unwrap` — contradicting the
claim that barewords end at every whitespace character.  With the comma
directly after the digit (`"[1,2]"`) lexing succeeds. -/
theorem C2_space_not_delimiter :
    is_delim ' ' = false ∧ lex "[1 ,2]".data = LexOut.abort ∧
    lex "[1,2]".data = LexOut.toks [Token.leftBracket, Token.numberLiteral "1",
      Token.comma, Token.numberLiteral "2", Token.rightBracket] :=
  ⟨rfl, rfl, rfl⟩

/-- C3 (counterexample): the document `"42"` is a syntax error (bare
top-level scalar), but the error string the entry point returns is `""` —
empty, hence not a non-empty description, refuting the claim as stated. -/
theorem C3_empty_error_counterexample :
    json "42" = some (Except.error "") ∧ ("" : String).length = 0 :=
  ⟨rfl, rfl⟩


/-- C4: any token sequence whose first token is neither `{` nor `[` is
rejected by the entry point `parse` (with the empty error string and no token
consumed), even though `parse_expression` accepts a number or string token in
nested position. -/
theorem C4_bare_toplevel_rejected (t : Token) (rest : List Token) (f : Nat)
    (n s : String) (rest2 : List Token)
    (h1 : t ≠ Token.leftBrace) (h2 : t ≠ Token.leftBracket) :
    parser_parse (t :: rest) = POut.res (Except.error "") (t :: rest) ∧
    parse_expression (f + 1) (Token.numberLiteral n :: rest2)
      = POut.res (Except.ok (JsonExpression.number n)) rest2 ∧
    parse_expression (f + 1) (Token.stringLiteral s :: rest2)
      = POut.res (Except.ok (JsonExpression.string s)) rest2 := by
  refine ⟨?_, rfl, rfl⟩
  cases t with
  | leftBrace => exact absurd rfl h1
  | leftBracket => exact absurd rfl h2
  | rightBrace => rfl
  | rightBracket => rfl
  | comma => rfl
  | colon => rfl
  | numberLiteral n2 => rfl
  | stringLiteral s2 => rfl

/-- Witness for C4 at the concrete sequence `42` (a bare top-level number). -/
theorem C4_witness :
    parser_parse [Token.numberLiteral "42"]
      = POut.res (Except.error "") [Token.numberLiteral "42"] ∧
    parse_expression 1 [Token.numberLiteral "7"]
      = POut.res (Except.ok (JsonExpression.number "7")) [] ∧
    parse_expression 1 [Token.stringLiteral "x"]
      = POut.res (Except.ok (JsonExpression.string "x")) [] :=
  C4_bare_toplevel_rejected (Token.numberLiteral "42") [] 0 "7" "x" []
    (by decide) (by decide)

/-- C8: the lexer has no error channel: a delimiter-bounded bareword that is
not accepted by the `f64` grammar makes `Lexer::lex` abort (the Rust
`unwrap()` panic) instead of returning a recoverable error; in particular the
unsupported literals `true`, `false` and `null` all abort. -/
theorem C8_bad_bareword_aborts (c : Char) (rest : List Char) (f : Nat)
    (hc : c ≠ ' ' ∧ c ≠ '\n' ∧ c ≠ '\t' ∧ c ≠ '\r' ∧ c ≠ '{' ∧ c ≠ '}' ∧
      c ≠ '[' ∧ c ≠ ']' ∧ c ≠ ',' ∧ c ≠ ':' ∧ c ≠ '"')
    (hp : parsesAsF64 (c :: rest.takeWhile (fun d => !is_delim d)) = false) :
    lexLoop (f + 1) (c :: rest) = LexOut.abort ∧
    lex "true".data = LexOut.abort ∧
    lex "false".data = LexOut.abort ∧
    lex "null".data = LexOut.abort := by
  refine ⟨?_, rfl, rfl, rfl⟩
  obtain ⟨h1, h2, h3, h4, h5, h6, h7, h8, h9, h10, h11⟩ := hc
  simp [lexLoop, h1, h2, h3, h4, h5, h6, h7, h8, h9, h10, h11, hp]

/-- Witness for C8 at the concrete bareword `true`. -/
theorem C8_witness : lexLoop 5 ("true").data = LexOut.abort ∧
    lex "true".data = LexOut.abort ∧
    lex "false".data = LexOut.abort ∧
    lex "null".data = LexOut.abort :=
  C8_bad_bareword_aborts 't' "rue".data 4 (by decide) (by decide)

/-- C10: an input that lexes to an empty token sequence (empty or
whitespace-only source) makes `parse` read `self.tokens[0]` out of bounds:
the pipeline aborts instead of returning an `Err` value, despite the declared
`Result` return type of `json`. -/
theorem C10_empty_token_abort (s : String) (h : lex s.data = LexOut.toks []) :
    json s = none ∧ json_out s = some POut.abort ∧
    parser_parse [] = POut.abort ∧ json "" = none ∧ json "   " = none := by
  refine ⟨?_, ?_, rfl, rfl, rfl⟩
  · simp [json, json_out, h, parser_parse]
  · simp [json_out, h, parser_parse]

/-- Witness for C10 at the empty source string. -/
theorem C10_witness :
    json "" = none ∧ json_out "" = some POut.abort ∧
    parser_parse [] = POut.abort ∧ json "" = none ∧ json "   " = none :=
  C10_empty_token_abort "" rfl

/-- Every error string produced by `parse_expression`, `parse_array` or
`parse_object` (at any fuel) is one of the seven fixed messages. -/
theorem parseStep_error_mem (f : Nat) :
    ∀ (c : PCall) (e : String) (rest : List Token),
      parseStep f c = POut.res (Except.error e) rest → e ∈ errorMessages := by
  induction f with
  | zero => intro c e rest h; simp [parseStep] at h
  | succ f ih =>
    intro c e rest h
    cases c with
    | expr ts =>
      cases ts with
      | nil => simp [parseStep] at h
      | cons t ts2 =>
        cases t with
        | leftBracket => exact ih _ _ _ h
        | leftBrace => exact ih _ _ _ h
        | numberLiteral n => simp [parseStep] at h
        | stringLiteral s => simp [parseStep] at h
        | rightBrace =>
          simp [parseStep] at h
          rw [← h.1]; simp [errorMessages]
        | rightBracket =>
          simp [parseStep] at h
          rw [← h.1]; simp [errorMessages]
        | comma =>
          simp [parseStep] at h
          rw [← h.1]; simp [errorMessages]
        | colon =>
          simp [parseStep] at h
          rw [← h.1]; simp [errorMessages]
    | arr ts =>
      cases ts with
      | nil => simp [parseStep] at h
      | cons t ts2 =>
        cases t with
        | leftBracket =>
          cases ts2 with
          | nil => simp [parseStep] at h
          | cons t2 ts3 =>
            cases t2 with
            | rightBracket => simp [parseStep] at h
            | leftBrace => exact ih _ _ _ h
            | leftBracket => exact ih _ _ _ h
            | rightBrace => exact ih _ _ _ h
            | comma => exact ih _ _ _ h
            | colon => exact ih _ _ _ h
            | numberLiteral n => exact ih _ _ _ h
            | stringLiteral s => exact ih _ _ _ h
        | leftBrace =>
          simp [parseStep] at h; rw [← h.1]; simp [errorMessages]
        | rightBrace =>
          simp [parseStep] at h; rw [← h.1]; simp [errorMessages]
        | rightBracket =>
          simp [parseStep] at h; rw [← h.1]; simp [errorMessages]
        | comma =>
          simp [parseStep] at h; rw [← h.1]; simp [errorMessages]
        | colon =>
          simp [parseStep] at h; rw [← h.1]; simp [errorMessages]
        | numberLiteral n =>
          simp [parseStep] at h; rw [← h.1]; simp [errorMessages]
        | stringLiteral s =>
          simp [parseStep] at h; rw [← h.1]; simp [errorMessages]
    | arrLoop ts acc =>
      rw [show parseStep (f + 1) (PCall.arrLoop ts acc) =
        (match parseStep f (PCall.expr ts) with
        | POut.fuelOut => POut.fuelOut
        | POut.abort => POut.abort
        | POut.res (Except.error e) rest => POut.res (Except.error e) rest
        | POut.res (Except.ok e) rest =>
          match rest with
          | [] => POut.abort
          | Token.comma :: rest2 => parseStep f (PCall.arrLoop rest2 (acc ++ [e]))
          | Token.rightBracket :: rest2 =>
            POut.res (Except.ok (JsonExpression.array (acc ++ [e]))) rest2
          | _ :: _ => POut.res (Except.error "Expected right bracket...") rest) from rfl] at h
      cases hE : parseStep f (PCall.expr ts) with
      | fuelOut => rw [hE] at h; simp at h
      | abort => rw [hE] at h; simp at h
      | res r rest2 =>
        rw [hE] at h
        cases r with
        | error e2 =>
          simp at h
          exact h.1 ▸ ih _ _ _ hE
        | ok v =>
          cases rest2 with
          | nil => simp at h
          | cons t2 rest3 =>
            cases t2 with
            | comma => exact ih _ _ _ h
            | rightBracket => simp at h
            | leftBrace => simp at h; rw [← h.1]; simp [errorMessages]
            | leftBracket => simp at h; rw [← h.1]; simp [errorMessages]
            | rightBrace => simp at h; rw [← h.1]; simp [errorMessages]
            | colon => simp at h; rw [← h.1]; simp [errorMessages]
            | numberLiteral n => simp at h; rw [← h.1]; simp [errorMessages]
            | stringLiteral s => simp at h; rw [← h.1]; simp [errorMessages]
    | obj ts =>
      cases ts with
      | nil => simp [parseStep] at h
      | cons t ts2 =>
        cases t with
        | leftBrace =>
          cases ts2 with
          | nil => simp [parseStep] at h
          | cons t2 ts3 =>
            cases t2 with
            | rightBrace => simp [parseStep] at h
            | leftBrace => exact ih _ _ _ h
            | leftBracket => exact ih _ _ _ h
            | rightBracket => exact ih _ _ _ h
            | comma => exact ih _ _ _ h
            | colon => exact ih _ _ _ h
            | numberLiteral n => exact ih _ _ _ h
            | stringLiteral s => exact ih _ _ _ h
        | leftBracket =>
          simp [parseStep] at h; rw [← h.1]; simp [errorMessages]
        | rightBrace =>
          simp [parseStep] at h; rw [← h.1]; simp [errorMessages]
        | rightBracket =>
          simp [parseStep] at h; rw [← h.1]; simp [errorMessages]
        | comma =>
          simp [parseStep] at h; rw [← h.1]; simp [errorMessages]
        | colon =>
          simp [parseStep] at h; rw [← h.1]; simp [errorMessages]
        | numberLiteral n =>
          simp [parseStep] at h; rw [← h.1]; simp [errorMessages]
        | stringLiteral s =>
          simp [parseStep] at h; rw [← h.1]; simp [errorMessages]
    | objLoop ts acc =>
      cases ts with
      | nil => simp [parseStep] at h
      | cons t ts2 =>
        cases t with
        | stringLiteral k =>
          cases ts2 with
          | nil => simp [parseStep] at h
          | cons t2 ts3 =>
            cases t2 with
            | colon =>
              rw [show parseStep (f + 1)
                  (PCall.objLoop (Token.stringLiteral k :: Token.colon :: ts3) acc) =
                (match parseStep f (PCall.expr ts3) with
                | POut.fuelOut => POut.fuelOut
                | POut.abort => POut.abort
                | POut.res (Except.error e) rest3 => POut.res (Except.error e) rest3
                | POut.res (Except.ok v) rest3 =>
                  match rest3 with
                  | [] => POut.abort
                  | Token.comma :: rest4 =>
                    parseStep f (PCall.objLoop rest4 (acc ++ [(k, v)]))
                  | Token.rightBrace :: rest4 =>
                    POut.res (Except.ok (JsonExpression.object (acc ++ [(k, v)]))) rest4
                  | _ :: _ => POut.res (Except.error "Expected right brace...") rest3) from rfl] at h
              cases hE : parseStep f (PCall.expr ts3) with
              | fuelOut => rw [hE] at h; simp at h
              | abort => rw [hE] at h; simp at h
              | res r rest3 =>
                rw [hE] at h
                cases r with
                | error e2 =>
                  simp at h
                  exact h.1 ▸ ih _ _ _ hE
                | ok v =>
                  cases rest3 with
                  | nil => simp at h
                  | cons t3 rest4 =>
                    cases t3 with
                    | comma => exact ih _ _ _ h
                    | rightBrace => simp at h
                    | leftBrace => simp at h; rw [← h.1]; simp [errorMessages]
                    | leftBracket => simp at h; rw [← h.1]; simp [errorMessages]
                    | rightBracket => simp at h; rw [← h.1]; simp [errorMessages]
                    | colon => simp at h; rw [← h.1]; simp [errorMessages]
                    | numberLiteral n => simp at h; rw [← h.1]; simp [errorMessages]
                    | stringLiteral s => simp at h; rw [← h.1]; simp [errorMessages]
            | leftBrace => simp [parseStep] at h; rw [← h.1]; simp [errorMessages]
            | leftBracket => simp [parseStep] at h; rw [← h.1]; simp [errorMessages]
            | rightBrace => simp [parseStep] at h; rw [← h.1]; simp [errorMessages]
            | rightBracket => simp [parseStep] at h; rw [← h.1]; simp [errorMessages]
            | comma => simp [parseStep] at h; rw [← h.1]; simp [errorMessages]
            | numberLiteral n => simp [parseStep] at h; rw [← h.1]; simp [errorMessages]
            | stringLiteral s => simp [parseStep] at h; rw [← h.1]; simp [errorMessages]
        | leftBrace => simp [parseStep] at h; rw [← h.1]; simp [errorMessages]
        | leftBracket => simp [parseStep] at h; rw [← h.1]; simp [errorMessages]
        | rightBrace => simp [parseStep] at h; rw [← h.1]; simp [errorMessages]
        | rightBracket => simp [parseStep] at h; rw [← h.1]; simp [errorMessages]
        | comma => simp [parseStep] at h; rw [← h.1]; simp [errorMessages]
        | colon => simp [parseStep] at h; rw [← h.1]; simp [errorMessages]
        | numberLiteral n => simp [parseStep] at h; rw [← h.1]; simp [errorMessages]

/-- C3 (amended): every structural mismatch inside `parse_expression`,
`parse_array` and `parse_object` returns one of seven fixed non-empty
"Expected ..." strings naming the expected construct, propagated unchanged to
the caller; but the entry point `parse` rejects a document whose first token
is not `{` or `[` with the EMPTY error string, so not every syntax error
carries a non-empty description. -/
theorem C3_error_strings (ts : List Token) (e : String) (rest : List Token)
    (h : parser_parse ts = POut.res (Except.error e) rest) :
    (e = "" ∧ ∃ t ts2, ts = t :: ts2 ∧ t ≠ Token.leftBrace ∧ t ≠ Token.leftBracket) ∨
    (e ∈ errorMessages ∧ e ≠ "") := by
  have hne : ∀ x ∈ errorMessages, x ≠ ("" : String) := by decide
  cases ts with
  | nil => simp [parser_parse] at h
  | cons t ts2 =>
    cases t with
    | leftBrace =>
      right
      have hm := parseStep_error_mem (parserFuel (Token.leftBrace :: ts2)) _ _ _ h
      exact ⟨hm, hne _ hm⟩
    | leftBracket =>
      right
      have hm := parseStep_error_mem (parserFuel (Token.leftBracket :: ts2)) _ _ _ h
      exact ⟨hm, hne _ hm⟩
    | rightBrace =>
      simp [parser_parse] at h
      exact Or.inl ⟨h.1.symm, _, _, rfl, by decide, by decide⟩
    | rightBracket =>
      simp [parser_parse] at h
      exact Or.inl ⟨h.1.symm, _, _, rfl, by decide, by decide⟩
    | comma =>
      simp [parser_parse] at h
      exact Or.inl ⟨h.1.symm, _, _, rfl, by decide, by decide⟩
    | colon =>
      simp [parser_parse] at h
      exact Or.inl ⟨h.1.symm, _, _, rfl, by decide, by decide⟩
    | numberLiteral n =>
      simp [parser_parse] at h
      exact Or.inl ⟨h.1.symm, _, _, rfl, by simp, by simp⟩
    | stringLiteral s =>
      simp [parser_parse] at h
      exact Or.inl ⟨h.1.symm, _, _, rfl, by simp, by simp⟩

/-- Witness for C3 at the concrete token sequence `,` (and, for the non-empty
branch, at the sequence `[ }` whose mismatch error is a fixed message). -/
theorem C3_witness :
    (("" : String) = "" ∧ ∃ t ts2, ([Token.comma] : List Token) = t :: ts2 ∧
      t ≠ Token.leftBrace ∧ t ≠ Token.leftBracket) ∨
    (("" : String) ∈ errorMessages ∧ ("" : String) ≠ "") :=
  C3_error_strings [Token.comma] "" [Token.comma] rfl

/-- The string-body scan takes the slice between the quotes verbatim: a
successful scan returns either a payload followed by the closing quote and
the rest of the input, or (when no closing quote exists) the whole remaining
input as payload. -/
theorem scanString_verbatim :
    ∀ (cs p r : List Char), scanString cs = some (p, r) →
      cs = p ++ '"' :: r ∨ (r = [] ∧ p = cs) := by
  have main : ∀ (n : Nat) (cs p r : List Char), cs.length ≤ n →
      scanString cs = some (p, r) → cs = p ++ '"' :: r ∨ (r = [] ∧ p = cs) := by
    intro n
    induction n using Nat.strong_induction_on with
    | _ n ih =>
      intro cs p r hlen h
      cases cs with
      | nil =>
        simp [scanString] at h
        rcases h with ⟨rfl, rfl⟩
        simp
      | cons c rest =>
        by_cases hq : c = '"'
        · subst hq
          simp [scanString] at h
          rcases h with ⟨rfl, rfl⟩
          simp
        · by_cases hb : c = '\\'
          · subst hb
            cases rest with
            | nil => simp [scanString] at h
            | cons d rest2 =>
              cases hs : scanString rest2 with
              | none => simp [scanString, hs] at h
              | some pr =>
                obtain ⟨p2, r2⟩ := pr
                have h2 : p = '\\' :: d :: p2 ∧ r = r2 := by
                  simp [scanString, hs] at h
                  exact ⟨h.1.symm, h.2.symm⟩
                obtain ⟨hp, hr⟩ := h2
                subst hp; subst hr
                have hlen2 : rest2.length ≤ n - 1 := by
                  simp at hlen; omega
                rcases ih (n - 1) (by simp at hlen; omega) rest2 p2 r hlen2 hs with h3 | h3
                · exact Or.inl (by rw [h3]; simp)
                · exact Or.inr ⟨h3.1, by rw [h3.2]⟩
          · cases hs : scanString rest with
            | none => simp [scanString, hq, hb, hs] at h
            | some pr =>
              obtain ⟨p2, r2⟩ := pr
              have h2 : p = c :: p2 ∧ r = r2 := by
                simp [scanString, hq, hb, hs] at h
                exact ⟨h.1.symm, h.2.symm⟩
              obtain ⟨hp, hr⟩ := h2
              subst hp; subst hr
              have hlen2 : rest.length ≤ n - 1 := by
                simp at hlen; omega
              rcases ih (n - 1) (by simp at hlen; omega) rest p2 r hlen2 hs with h3 | h3
              · exact Or.inl (by rw [h3]; simp)
              · exact Or.inr ⟨h3.1, by rw [h3.2]⟩
  intro cs p r
  exact main cs.length cs p r (Nat.le_refl _)

/-- When the remaining input contains no (unescaped) closing quote, the scan
stops at end-of-input with the whole remainder as payload — unless it ends
mid-escape, in which case the slice aborts. -/
theorem scanString_unterminated :
    ∀ (cs : List Char), hasCloseQuote cs = false →
      ((endsMidEscape cs = false → scanString cs = some (cs, [])) ∧
       (endsMidEscape cs = true → scanString cs = none)) := by
  have main : ∀ (n : Nat) (cs : List Char), cs.length ≤ n → hasCloseQuote cs = false →
      ((endsMidEscape cs = false → scanString cs = some (cs, [])) ∧
       (endsMidEscape cs = true → scanString cs = none)) := by
    intro n
    induction n using Nat.strong_induction_on with
    | _ n ih =>
      intro cs hlen hnc
      cases cs with
      | nil =>
        constructor
        · intro _; simp [scanString]
        · intro hm; simp [endsMidEscape] at hm
      | cons c rest =>
        by_cases hq : c = '"'
        · subst hq; simp [hasCloseQuote] at hnc
        · by_cases hb : c = '\\'
          · subst hb
            cases rest with
            | nil =>
              constructor
              · intro hm; simp [endsMidEscape] at hm
              · intro _; simp [scanString]
            | cons d rest2 =>
              have hnc2 : hasCloseQuote rest2 = false := by
                simpa [hasCloseQuote] using hnc
              have hrec := ih (n - 1) (by simp at hlen; omega) rest2
                (by simp at hlen; omega) hnc2
              constructor
              · intro hm
                have hm2 : endsMidEscape rest2 = false := by
                  simpa [endsMidEscape] using hm
                simp [scanString, hrec.1 hm2]
              · intro hm
                have hm2 : endsMidEscape rest2 = true := by
                  simpa [endsMidEscape] using hm
                simp [scanString, hrec.2 hm2]
          · have hnc2 : hasCloseQuote rest = false := by
              simpa [hasCloseQuote, hq, hb] using hnc
            have hrec := ih (n - 1) (by simp at hlen; omega) rest
              (by simp at hlen; omega) hnc2
            constructor
            · intro hm
              have hm2 : endsMidEscape rest = false := by
                simpa [endsMidEscape, hq, hb] using hm
              simp [scanString, hq, hb, hrec.1 hm2]
            · intro hm
              have hm2 : endsMidEscape rest = true := by
                simpa [endsMidEscape, hq, hb] using hm
              simp [scanString, hq, hb, hrec.2 hm2]
  intro cs
  exact main cs.length cs (Nat.le_refl _)

/-- A member list is never longer than its comma-separated token rendering
plus one. -/
theorem sepByComma_memberTokens_length :
    ∀ (ms : List (String × List Token × JsonExpression)),
      ms.length ≤ (sepByComma (ms.map memberTokens)).length + 1 := by
  intro ms
  induction ms with
  | nil => simp
  | cons m rest ih =>
    cases rest with
    | nil => simp
    | cons r rest2 =>
      simp only [List.map_cons, sepByComma] at ih ⊢
      simp only [List.length_cons, List.length_append] at ih ⊢
      omega

/-- One unfolding step of the object-member loop after a key and colon. -/
theorem parseStep_objLoop_keycolon (g : Nat) (k : String) (rest2 : List Token)
    (acc : List (String × JsonExpression)) :
    parseStep (g + 1) (PCall.objLoop (Token.stringLiteral k :: Token.colon :: rest2) acc) =
      (match parseStep g (PCall.expr rest2) with
       | POut.fuelOut => POut.fuelOut
       | POut.abort => POut.abort
       | POut.res (Except.error e) rest3 => POut.res (Except.error e) rest3
       | POut.res (Except.ok v) rest3 =>
         match rest3 with
         | [] => POut.abort
         | Token.comma :: rest4 => parseStep g (PCall.objLoop rest4 (acc ++ [(k, v)]))
         | Token.rightBrace :: rest4 =>
           POut.res (Except.ok (JsonExpression.object (acc ++ [(k, v)]))) rest4
         | _ :: _ => POut.res (Except.error "Expected right brace...") rest3) := rfl

/-- `parse_object` on a brace followed by anything but a right brace enters
the member loop. -/
theorem parseStep_obj_enter (g : Nat) (t : Token) (rest2 : List Token)
    (h : t ≠ Token.rightBrace) :
    parseStep (g + 1) (PCall.obj (Token.leftBrace :: t :: rest2))
      = parseStep g (PCall.objLoop (t :: rest2) []) := by
  cases t with
  | rightBrace => exact absurd rfl h
  | leftBrace => rfl
  | leftBracket => rfl
  | rightBracket => rfl
  | comma => rfl
  | colon => rfl
  | numberLiteral n => rfl
  | stringLiteral s => rfl

/-- The object-member loop consumes a comma-separated member list followed by
`}` and appends the `(key, value)` pairs to the accumulator in source order,
provided each member value's token sequence parses as an expression. -/
theorem parse_objLoop_spec (f : Nat) :
    ∀ (members : List (String × List Token × JsonExpression)),
      (∀ m ∈ members, ∀ g, f ≤ g → ∀ tail,
        parseStep g (PCall.expr (m.2.1 ++ tail)) = POut.res (Except.ok m.2.2) tail) →
      members ≠ [] →
      ∀ (acc : List (String × JsonExpression)) (g : Nat), f + 2 * members.length ≤ g →
        parseStep g (PCall.objLoop
            (sepByComma (members.map memberTokens) ++ [Token.rightBrace]) acc)
          = POut.res (Except.ok (JsonExpression.object
              (acc ++ members.map (fun m => (m.1, m.2.2))))) [] := by
  intro members
  induction members with
  | nil => intro _ hne; exact absurd rfl hne
  | cons m rest ih =>
    intro hv _ acc g hg
    obtain ⟨k, vt, v⟩ := m
    obtain ⟨g1, rfl⟩ : ∃ g1, g = g1 + 1 :=
      ⟨g - 1, by simp only [List.length_cons] at hg; omega⟩
    have hfg : f ≤ g1 := by
      simp only [List.length_cons] at hg; omega
    cases rest with
    | nil =>
      have hvm : parseStep g1 (PCall.expr (vt ++ [Token.rightBrace]))
          = POut.res (Except.ok v) [Token.rightBrace] :=
        hv (k, vt, v) (by simp) g1 hfg [Token.rightBrace]
      simp only [List.map_cons, List.map_nil, sepByComma]
      rw [show memberTokens (k, vt, v) = Token.stringLiteral k :: Token.colon :: vt from rfl]
      simp only [List.cons_append]
      rw [parseStep_objLoop_keycolon, hvm]
    | cons r rest2 =>
      have hvm : parseStep g1 (PCall.expr (vt ++ (Token.comma ::
            (sepByComma (memberTokens r :: List.map memberTokens rest2) ++ [Token.rightBrace]))))
          = POut.res (Except.ok v) (Token.comma ::
            (sepByComma (memberTokens r :: List.map memberTokens rest2) ++ [Token.rightBrace])) :=
        hv (k, vt, v) (by simp) g1 hfg _
      have hrec : parseStep g1 (PCall.objLoop
            (sepByComma (memberTokens r :: List.map memberTokens rest2) ++ [Token.rightBrace])
            (acc ++ [(k, v)]))
          = POut.res (Except.ok (JsonExpression.object
              ((acc ++ [(k, v)]) ++ (r :: rest2).map (fun m2 => (m2.1, m2.2.2))))) [] := by
        have := ih (fun m2 hm2 => hv m2 (List.mem_cons_of_mem _ hm2)) (by simp)
          (acc ++ [(k, v)]) g1 (by simp only [List.length_cons] at hg ⊢; omega)
        simpa only [List.map_cons] using this
      simp only [List.map_cons, sepByComma]
      rw [show memberTokens (k, vt, v) = Token.stringLiteral k :: Token.colon :: vt from rfl]
      simp only [List.cons_append, List.append_assoc, List.singleton_append]
      rw [parseStep_objLoop_keycolon, hvm]
      show parseStep g1 (PCall.objLoop
          (sepByComma (memberTokens r :: List.map memberTokens rest2) ++ [Token.rightBrace])
          (acc ++ [(k, v)])) = _
      rw [hrec]
      simp

/-- `parse_object` on the token rendering of an object literal returns
exactly the `(key, value)` pairs in source order. -/
theorem parse_object_spec (f : Nat)
    (members : List (String × List Token × JsonExpression))
    (hv : ∀ m ∈ members, ∀ g, f ≤ g → ∀ tail,
      parseStep g (PCall.expr (m.2.1 ++ tail)) = POut.res (Except.ok m.2.2) tail) :
    ∀ g, f + 2 * members.length + 2 ≤ g →
      parseStep g (PCall.obj (objectTokens members))
        = POut.res (Except.ok (JsonExpression.object
            (members.map (fun m => (m.1, m.2.2))))) [] := by
  intro g hg
  obtain ⟨g1, rfl⟩ : ∃ g1, g = g1 + 1 := ⟨g - 1, by omega⟩
  cases members with
  | nil => rfl
  | cons m rest =>
    obtain ⟨Z, hZ⟩ : ∃ Z, sepByComma ((m :: rest).map memberTokens) ++ [Token.rightBrace]
        = Token.stringLiteral m.1 :: Z := by
      cases rest with
      | nil =>
        exact ⟨Token.colon :: m.2.1 ++ [Token.rightBrace],
          by simp [sepByComma, memberTokens]⟩
      | cons r rest2 =>
        exact ⟨(Token.colon :: m.2.1 ++ Token.comma ::
            sepByComma (memberTokens r :: List.map memberTokens rest2)) ++ [Token.rightBrace],
          by simp [sepByComma, memberTokens]⟩
    rw [show objectTokens (m :: rest)
        = Token.leftBrace :: (sepByComma ((m :: rest).map memberTokens) ++ [Token.rightBrace])
        from rfl, hZ]
    rw [parseStep_obj_enter g1 _ _ (by simp)]
    rw [← hZ]
    have := parse_objLoop_spec f (m :: rest) hv (by simp) [] g1
      (by simp only [List.length_cons] at hg ⊢; omega)
    rw [this]
    simp

/-- C7: for every well-formed object (token rendering of a member list whose
value token sequences parse as expressions), `parse_object` returns the
`Object` node listing the `(key, value)` pairs exactly in source order; in
particular (second conjunct) for arbitrary string-valued member lists —
duplicate keys included — the full entry point returns the pairs verbatim in
insertion order, neither merged nor deduplicated. -/
theorem C7_object_member_order (f : Nat)
    (members : List (String × List Token × JsonExpression))
    (hv : ∀ m ∈ members, ∀ g, f ≤ g → ∀ tail,
      parse_expression g (m.2.1 ++ tail) = POut.res (Except.ok m.2.2) tail) :
    (∀ g, f + 2 * members.length + 2 ≤ g →
      parse_object g (objectTokens members)
        = POut.res (Except.ok (JsonExpression.object
            (members.map (fun m => (m.1, m.2.2))))) []) ∧
    (∀ kvs : List (String × String),
      parser_parse (objectTokens (kvs.map (fun kv =>
          (kv.1, [Token.stringLiteral kv.2], JsonExpression.string kv.2))))
        = POut.res (Except.ok (JsonExpression.object
            (kvs.map (fun kv => (kv.1, JsonExpression.string kv.2))))) []) := by
  constructor
  · intro g hg
    exact parse_object_spec f members hv g hg
  · intro kvs
    cases kvs with
    | nil => rfl
    | cons kv rest =>
      have hv2 : ∀ m ∈ (kv :: rest).map (fun kv2 =>
            (kv2.1, [Token.stringLiteral kv2.2], JsonExpression.string kv2.2)),
          ∀ g, 1 ≤ g → ∀ tail,
            parseStep g (PCall.expr (m.2.1 ++ tail)) = POut.res (Except.ok m.2.2) tail := by
        intro m hm g hgg tail
        obtain ⟨g2, rfl⟩ : ∃ g2, g = g2 + 1 := ⟨g - 1, by omega⟩
        obtain ⟨kv2, hkv2, rfl⟩ := List.mem_map.mp hm
        rfl
      have hlen := sepByComma_memberTokens_length ((kv :: rest).map (fun kv2 =>
        (kv2.1, [Token.stringLiteral kv2.2], JsonExpression.string kv2.2)))
      have hmain := parse_object_spec 1 ((kv :: rest).map (fun kv2 =>
          (kv2.1, [Token.stringLiteral kv2.2], JsonExpression.string kv2.2))) hv2
        (parserFuel (objectTokens ((kv :: rest).map (fun kv2 =>
          (kv2.1, [Token.stringLiteral kv2.2], JsonExpression.string kv2.2)))))
        (by
          simp only [parserFuel, objectTokens, List.length_cons, List.length_append,
            List.length_map] at hlen ⊢
          omega)
      rw [show parser_parse (objectTokens ((kv :: rest).map (fun kv2 =>
            (kv2.1, [Token.stringLiteral kv2.2], JsonExpression.string kv2.2))))
          = parseStep (parserFuel (objectTokens ((kv :: rest).map (fun kv2 =>
            (kv2.1, [Token.stringLiteral kv2.2], JsonExpression.string kv2.2)))))
            (PCall.obj (objectTokens ((kv :: rest).map (fun kv2 =>
            (kv2.1, [Token.stringLiteral kv2.2], JsonExpression.string kv2.2)))))
          from rfl]
      rw [hmain]
      simp [List.map_map]

/-- Witness for C7 at a one-member object and at an object with a duplicated
key `a`. -/
theorem C7_witness :
    parse_object 7 (objectTokens [("a", [Token.numberLiteral "1"], JsonExpression.number "1")])
      = POut.res (Except.ok (JsonExpression.object
          [("a", JsonExpression.number "1")])) [] ∧
    parser_parse (objectTokens ([("a", "x"), ("a", "y")].map (fun kv =>
        (kv.1, [Token.stringLiteral kv.2], JsonExpression.string kv.2))))
      = POut.res (Except.ok (JsonExpression.object
          ([("a", "x"), ("a", "y")].map (fun kv => (kv.1, JsonExpression.string kv.2))))) [] := by
  constructor
  · exact (C7_object_member_order 1
      [("a", [Token.numberLiteral "1"], JsonExpression.number "1")]
      (by
        intro m hm g hgg tail
        simp only [List.mem_singleton] at hm
        subst hm
        obtain ⟨g2, rfl⟩ : ∃ g2, g = g2 + 1 := ⟨g - 1, by omega⟩
        rfl)).1 7 (by simp)
  · exact (C7_object_member_order 1 [] (by simp)).2 [("a", "x"), ("a", "y")]

/-- C6: string literals are stored verbatim: a backslash makes the scan skip
the next character but both characters stay in the payload, no unescaping is
performed (first conjunct: the payload is the literal slice between the
quotes), and parsing `{"k": "a\\\"b"}` yields a string value that still
contains the backslash-quote pair. -/
theorem C6_raw_string_payload :
    (∀ (cs p r : List Char), scanString cs = some (p, r) →
      cs = p ++ '"' :: r ∨ (r = [] ∧ p = cs)) ∧
    json "\x7b\"k\": \"a\\\"b\"\x7d" =
      some (Except.ok (JsonExpression.object
        [("k", JsonExpression.string "a\\\"b")])) ∧
    lex "\"a\\\"b\"".data = LexOut.toks [Token.stringLiteral "a\\\"b"] :=
  ⟨scanString_verbatim, rfl, rfl⟩

/-- Witness for C6 at the two-character remainder `a"`. -/
theorem C6_witness :
    (['a', '"'] : List Char) = ['a'] ++ '"' :: [] ∨
    (([] : List Char) = [] ∧ (['a'] : List Char) = ['a', '"']) :=
  C6_raw_string_payload.1 ['a', '"'] ['a'] [] rfl

/-- C9: when the opening quote of a string literal is never closed and the
scan does not end mid-escape (the final scanned character is not a
backslash), the lexer does not overrun: the scan stops at end-of-input and
the payload is every character from just after the opening quote to the end
of the source; only a scan that ends mid-escape aborts (the Rust slice
`source[start..index]` with `index = len + 1`). -/
theorem C9_unterminated_string_stops (cs : List Char)
    (hnc : hasCloseQuote cs = false) :
    (endsMidEscape cs = false → scanString cs = some (cs, [])) ∧
    (endsMidEscape cs = true → scanString cs = none) ∧
    lex "\"abc".data = LexOut.toks [Token.stringLiteral "abc"] ∧
    lex "\"ab\\".data = LexOut.abort := by
  have h := scanString_unterminated cs hnc
  exact ⟨h.1, h.2, rfl, rfl⟩

/-- Witness for C9 at the unterminated remainders `abc` (stops, full payload)
and `ab\\` (ends mid-escape, aborts). -/
theorem C9_witness :
    scanString "abc".data = some ("abc".data, []) ∧
    scanString "ab\\".data = none :=
  ⟨(C9_unterminated_string_stops "abc".data rfl).1 rfl,
   (C9_unterminated_string_stops "ab\\".data rfl).2.1 rfl⟩

/-- One unfolding step of the array-element loop. -/
theorem parseStep_arrLoop_step (g : Nat) (ts : List Token) (acc : List JsonExpression) :
    parseStep (g + 1) (PCall.arrLoop ts acc) =
      (match parseStep g (PCall.expr ts) with
       | POut.fuelOut => POut.fuelOut
       | POut.abort => POut.abort
       | POut.res (Except.error e) rest => POut.res (Except.error e) rest
       | POut.res (Except.ok e) rest =>
         match rest with
         | [] => POut.abort
         | Token.comma :: rest2 => parseStep g (PCall.arrLoop rest2 (acc ++ [e]))
         | Token.rightBracket :: rest2 =>
           POut.res (Except.ok (JsonExpression.array (acc ++ [e]))) rest2
         | _ :: _ => POut.res (Except.error "Expected right bracket...") rest) := rfl

/-- `parse_array` on a bracket followed by anything but a right bracket enters
the element loop. -/
theorem parseStep_arr_enter (g : Nat) (t : Token) (rest2 : List Token)
    (h : t ≠ Token.rightBracket) :
    parseStep (g + 1) (PCall.arr (Token.leftBracket :: t :: rest2))
      = parseStep g (PCall.arrLoop (t :: rest2) []) := by
  cases t with
  | rightBracket => exact absurd rfl h
  | leftBrace => rfl
  | leftBracket => rfl
  | rightBrace => rfl
  | comma => rfl
  | colon => rfl
  | numberLiteral n => rfl
  | stringLiteral s => rfl

/-- An element list is never longer than its every-element-followed-by-comma
token rendering. -/
theorem joinTokens_comma_length :
    ∀ (elems : List (List Token × JsonExpression)),
      elems.length ≤ (joinTokens (elems.map (fun e => e.1 ++ [Token.comma]))).length := by
  intro elems
  induction elems with
  | nil => simp [joinTokens]
  | cons e rest ih =>
    simp only [List.map_cons, joinTokens, List.length_append, List.length_cons] at ih ⊢
    omega

/-- The array-element loop on a token sequence in which every element — the
last included — is followed by a comma and then `]`: after the final comma the
loop calls `parse_expression` again, which fails on the `]` token, and that
syntax error is propagated with the `]` still unconsumed. -/
theorem parse_arrLoop_trailing_spec (f : Nat) :
    ∀ (elems : List (List Token × JsonExpression)),
      (∀ e ∈ elems, ∀ g, f ≤ g → ∀ tail,
        parseStep g (PCall.expr (e.1 ++ tail)) = POut.res (Except.ok e.2) tail) →
      ∀ (acc : List JsonExpression) (g : Nat), f + 2 * elems.length + 2 ≤ g →
        parseStep g (PCall.arrLoop
            (joinTokens (elems.map (fun e => e.1 ++ [Token.comma]))
              ++ [Token.rightBracket]) acc)
          = POut.res (Except.error "Unexpected token at start of expression...")
              [Token.rightBracket] := by
  intro elems
  induction elems with
  | nil =>
    intro _ acc g hg
    obtain ⟨g2, rfl⟩ : ∃ g2, g = g2 + 2 := ⟨g - 2, by omega⟩
    rfl
  | cons e rest ih =>
    intro hv acc g hg
    obtain ⟨vt, v⟩ := e
    obtain ⟨g1, rfl⟩ : ∃ g1, g = g1 + 1 :=
      ⟨g - 1, by simp only [List.length_cons] at hg; omega⟩
    have hfg : f ≤ g1 := by simp only [List.length_cons] at hg; omega
    have hvm : parseStep g1 (PCall.expr (vt ++ (Token.comma ::
          (joinTokens (rest.map (fun e2 => e2.1 ++ [Token.comma]))
            ++ [Token.rightBracket]))))
        = POut.res (Except.ok v) (Token.comma ::
          (joinTokens (rest.map (fun e2 => e2.1 ++ [Token.comma]))
            ++ [Token.rightBracket])) :=
      hv (vt, v) (by simp) g1 hfg _
    simp only [List.map_cons, joinTokens]
    rw [show ((vt, v).1 ++ [Token.comma]) = vt ++ [Token.comma] from rfl]
    simp only [List.append_assoc, List.singleton_append, List.cons_append,
      List.nil_append]
    rw [parseStep_arrLoop_step, hvm]
    show parseStep g1 (PCall.arrLoop
        (joinTokens (rest.map (fun e2 => e2.1 ++ [Token.comma])) ++ [Token.rightBracket])
        (acc ++ [v])) = _
    exact ih (fun e2 he2 => hv e2 (List.mem_cons_of_mem _ he2)) (acc ++ [v]) g1
      (by simp only [List.length_cons] at hg ⊢; omega)

/-- `parse_array` on the trailing-comma rendering of a non-empty element list
returns the syntax error of the `parse_expression` call made after the final
comma. -/
theorem parse_array_trailing_spec (f : Nat)
    (elems : List (List Token × JsonExpression))
    (hv : ∀ e ∈ elems, ∀ g, f ≤ g → ∀ tail,
      parseStep g (PCall.expr (e.1 ++ tail)) = POut.res (Except.ok e.2) tail)
    (hne : elems ≠ []) :
    ∀ g, f + 2 * elems.length + 3 ≤ g →
      parseStep g (PCall.arr (arrayTokensTrailing elems))
        = POut.res (Except.error "Unexpected token at start of expression...")
            [Token.rightBracket] := by
  intro g hg
  obtain ⟨g1, rfl⟩ : ∃ g1, g = g1 + 1 := ⟨g - 1, by omega⟩
  cases elems with
  | nil => exact absurd rfl hne
  | cons e rest =>
    obtain ⟨vt, v⟩ := e
    have h0 : parseStep f (PCall.expr (vt ++ [])) = POut.res (Except.ok v) [] :=
      hv (vt, v) (by simp) f (Nat.le_refl f) []
    rw [List.append_nil] at h0
    obtain ⟨t, ts2, rfl, ht⟩ : ∃ t ts2, vt = t :: ts2 ∧ t ≠ Token.rightBracket := by
      cases vt with
      | nil =>
        exfalso
        cases f with
        | zero => simp [parseStep] at h0
        | succ f2 => simp [parseStep] at h0
      | cons t ts2 =>
        refine ⟨t, ts2, rfl, ?_⟩
        intro hteq
        subst hteq
        cases f with
        | zero => simp [parseStep] at h0
        | succ f2 => simp [parseStep] at h0
    obtain ⟨Z, hZ⟩ : ∃ Z, joinTokens (((t :: ts2, v) :: rest).map
          (fun e2 => e2.1 ++ [Token.comma])) ++ [Token.rightBracket] = t :: Z :=
      ⟨(ts2 ++ [Token.comma])
        ++ (joinTokens (rest.map (fun e2 => e2.1 ++ [Token.comma])) ++ [Token.rightBracket]),
       by simp [joinTokens]⟩
    rw [show arrayTokensTrailing ((t :: ts2, v) :: rest)
        = Token.leftBracket :: (joinTokens (((t :: ts2, v) :: rest).map
            (fun e2 => e2.1 ++ [Token.comma])) ++ [Token.rightBracket]) from rfl, hZ]
    rw [parseStep_arr_enter g1 t Z ht]
    rw [← hZ]
    exact parse_arrLoop_trailing_spec f ((t :: ts2, v) :: rest) hv [] g1
      (by simp only [List.length_cons] at hg ⊢; omega)

/-- C5: for EVERY array whose last element is followed by a comma and then `]`
(the token rendering `[ e1 , ... , en , ]` of a non-empty element list whose
element token sequences parse as expressions), `parse` returns a syntax error:
after consuming the trailing comma the element loop attempts another
`parse_expression`, which fails on the `]` token with the message
"Unexpected token at start of expression...".  The second conjunct runs the
full entry point on arbitrary number-literal element lists, and the third is
the spec's concrete instance `"[1,]"`. -/
theorem C5_trailing_comma_error (f : Nat)
    (elems : List (List Token × JsonExpression))
    (hv : ∀ e ∈ elems, ∀ g, f ≤ g → ∀ tail,
      parse_expression g (e.1 ++ tail) = POut.res (Except.ok e.2) tail)
    (hne : elems ≠ []) :
    (∀ g, f + 2 * elems.length + 3 ≤ g →
      parse_array g (arrayTokensTrailing elems)
        = POut.res (Except.error "Unexpected token at start of expression...")
            [Token.rightBracket]) ∧
    (∀ ns : List String, ns ≠ [] →
      parser_parse (arrayTokensTrailing (ns.map (fun n =>
          ([Token.numberLiteral n], JsonExpression.number n))))
        = POut.res (Except.error "Unexpected token at start of expression...")
            [Token.rightBracket]) ∧
    json "[1,]" = some (Except.error "Unexpected token at start of expression...") := by
  refine ⟨?_, ?_, rfl⟩
  · intro g hg
    exact parse_array_trailing_spec f elems hv hne g hg
  · intro ns hns
    cases ns with
    | nil => exact absurd rfl hns
    | cons n rest =>
      have hv2 : ∀ e ∈ (n :: rest).map (fun n2 =>
            ([Token.numberLiteral n2], JsonExpression.number n2)),
          ∀ g, 1 ≤ g → ∀ tail,
            parseStep g (PCall.expr (e.1 ++ tail)) = POut.res (Except.ok e.2) tail := by
        intro e he g hgg tail
        obtain ⟨g2, rfl⟩ : ∃ g2, g = g2 + 1 := ⟨g - 1, by omega⟩
        obtain ⟨n2, hn2, rfl⟩ := List.mem_map.mp he
        rfl
      have hlen := joinTokens_comma_length ((n :: rest).map (fun n2 =>
        ([Token.numberLiteral n2], JsonExpression.number n2)))
      have hmain := parse_array_trailing_spec 1 ((n :: rest).map (fun n2 =>
          ([Token.numberLiteral n2], JsonExpression.number n2))) hv2 (by simp)
        (parserFuel (arrayTokensTrailing ((n :: rest).map (fun n2 =>
          ([Token.numberLiteral n2], JsonExpression.number n2)))))
        (by
          simp only [parserFuel, arrayTokensTrailing, List.length_cons,
            List.length_append, List.length_map, List.length_nil] at hlen ⊢
          omega)
      rw [show parser_parse (arrayTokensTrailing ((n :: rest).map (fun n2 =>
            ([Token.numberLiteral n2], JsonExpression.number n2))))
          = parseStep (parserFuel (arrayTokensTrailing ((n :: rest).map (fun n2 =>
            ([Token.numberLiteral n2], JsonExpression.number n2)))))
            (PCall.arr (arrayTokensTrailing ((n :: rest).map (fun n2 =>
            ([Token.numberLiteral n2], JsonExpression.number n2)))))
          from rfl]
      exact hmain

/-- Witness for C5 at the one-element trailing-comma array at array level, the
two-element list `2`, `3` at the entry point, and the concrete source
`"[1,]"`. -/
theorem C5_witness :
    parse_array 8 (arrayTokensTrailing
        [([Token.numberLiteral "1"], JsonExpression.number "1")])
      = POut.res (Except.error "Unexpected token at start of expression...")
          [Token.rightBracket] ∧
    parser_parse (arrayTokensTrailing (["2", "3"].map (fun n =>
        ([Token.numberLiteral n], JsonExpression.number n))))
      = POut.res (Except.error "Unexpected token at start of expression...")
          [Token.rightBracket] ∧
    json "[1,]" = some (Except.error "Unexpected token at start of expression...") := by
  have h := C5_trailing_comma_error 1
    [([Token.numberLiteral "1"], JsonExpression.number "1")]
    (by
      intro e he g hgg tail
      simp only [List.mem_singleton] at he
      subst he
      obtain ⟨g2, rfl⟩ : ∃ g2, g = g2 + 1 := ⟨g - 1, by omega⟩
      rfl)
    (by simp)
  exact ⟨h.1 8 (by decide), h.2.1 ["2", "3"] (by simp), h.2.2⟩
